import Mathlib

/-!
Verification of the OpenDSP signal-processing core (`src/utils/dsp-processing.ts`)
against its specification.

The TypeScript code is shallowly embedded: JavaScript numbers are modelled as
exact rationals (`ℚ`) where only field arithmetic and comparisons occur (cache
keys, times, parameter values, frequency bins), and as reals (`ℝ`) where the
code applies transcendental functions (`Math.sin`, `Math.exp`, `Math.pow`,
`Math.tanh`, `Math.log2`).  `Math.random()` is modelled by an explicit oracle
stream threaded through a `NoiseState`, so the module-level `NoiseGenerator`
singleton becomes explicit state passing.  JavaScript `Map` objects (the two
memoization caches) are modelled as insertion-ordered association lists with
the exact JS `Map` semantics: `set` on an existing key updates in place,
`keys().next().value` is the head, `delete` of the head is `tail`.
Floating-point rounding and NaN propagation are outside the model; all claims
under study concern exact structural/order properties.
-/

namespace OpenDSP

noncomputable section

/-! ### Constants from `constants/dsp-config.ts` -/

def SAMPLE_RATE : ℕ := 44100

def DISPLAY_SAMPLES : ℕ := 512

def FFT_SIZE : ℕ := 256

/-! ### JavaScript numeric primitives

`jsTrunc`/`jsMod` model the JS remainder operator `%` (truncated division,
sign of the dividend); `jsRound` models `Math.round` (half towards +∞);
`jsRoundQ` is the same on rationals; `jsGet` models `arr[i] || 0`-style
indexing where an out-of-range read degrades to `0`; `jsOr` models the
`x?.value || default` idiom of the audio/waterfall paths, where both a missing
parameter and a zero value fall back to the default. -/

def jsTrunc (x : ℝ) : ℤ := if 0 ≤ x then ⌊x⌋ else ⌈x⌉

def jsMod (a b : ℝ) : ℝ := a - b * jsTrunc (a / b)

def jsRound (x : ℝ) : ℤ := ⌊x + 1/2⌋

def jsRoundQ (q : ℚ) : ℤ := ⌊q + 1/2⌋

def jsGet (l : List ℝ) (i : ℤ) : ℝ := if 0 ≤ i then l.getD i.toNat 0 else 0

def jsOr (v : Option ℚ) (d : ℚ) : ℚ :=
  match v with
  | none => d
  | some x => if x = 0 then d else x

/-! ### JavaScript `Map` model (insertion-ordered association list) -/

def jsMapGet {α β : Type} [DecidableEq α] (k : α) : List (α × β) → Option β
  | [] => none
  | p :: rest => if p.1 = k then some p.2 else jsMapGet k rest

def jsMapSet {α β : Type} [DecidableEq α] (m : List (α × β)) (k : α) (v : β) :
    List (α × β) :=
  if (jsMapGet k m).isSome then m.map (fun p => if p.1 = k then (k, v) else p)
  else m ++ [(k, v)]

/-! ### Data model (`types/dsp.ts`) -/

inductive BlockType where
  | sine | square | sawtooth | triangle | pulse | chirp | noise
  | lowpass | highpass | bandpass | notch | interpolate
  deriving DecidableEq, Repr

/-- A `Block` carries its `parameters` as an association list of parameter
name to numeric `value` (the `min`/`max`/`step`/`unit` display metadata of
`BlockParameter` plays no role in the processing code and is omitted). -/
structure Block where
  id : String
  type : BlockType
  params : List (String × ℚ)
  enabled : Bool
  deriving DecidableEq

/-- Display-path parameter access `block.parameters.<name>.value` (the code
assumes the parameter is present; a missing entry reads as `0`). -/
def pval (b : Block) (name : String) : ℚ := (jsMapGet name b.params).getD 0

/-- Audio/waterfall-path parameter access `block.parameters.<name>?.value || d`. -/
def pOr (b : Block) (name : String) (d : ℚ) : ℚ := jsOr (jsMapGet name b.params) d

structure WaveformLine where
  id : String
  name : String
  blocks : List Block
  color : String
  muted : Bool
  visible : Bool

/-- A display point; `x` is an exact sample-position fraction, `y` the
normalized amplitude. -/
structure SignalPoint where
  x : ℚ
  y : ℝ

structure WaterfallData where
  frequencies : List ℚ
  magnitudes : List ℝ
  time : ℚ

/-- The `{points, color, visible, muted, blocks?}` record consumed by
`generateWaterfallData` and `generateAudioBuffer`. -/
structure WaveformInput where
  points : List SignalPoint
  color : String
  visible : Bool
  muted : Bool
  blocks : Option (List Block)

/-! ### Noise generator (`class NoiseGenerator`)

`rand` is the oracle of successive `Math.random()` outputs, `idx` the number
consumed so far, `b0/b1/b2` the pink-noise filter state. -/

structure NoiseState where
  rand : ℕ → ℝ
  idx : ℕ
  b0 : ℝ
  b1 : ℝ
  b2 : ℝ

def generateWhite (s : NoiseState) : ℝ × NoiseState :=
  ((s.rand s.idx * 2 - 1) * 0.01, { s with idx := s.idx + 1 })

def generatePink (s : NoiseState) : ℝ × NoiseState :=
  let w := generateWhite s
  let b0 := 0.99886 * s.b0 + w.1 * 0.0555179
  let b1 := 0.99332 * s.b1 + w.1 * 0.0750759
  let b2 := 0.96900 * s.b2 + w.1 * 0.1538520
  ((b0 + b1 + b2 + w.1 * 0.5362) * 0.01, { w.2 with b0 := b0, b1 := b1, b2 := b2 })

/-! ### Aliasing model (`applyAliasing`) -/

/-- `applyAliasing(frequency, sampleRate)`: below Nyquist the input passes
unchanged with power loss `1.0`; above it the frequency folds into
`[0, nyquist]` and the power loss is `10^(-6·log2(f/nyquist)/20)` clamped to
`[0.0001, 1.0]`.  (The unused local `aliasOrder` of the source is omitted.) -/
def applyAliasing (frequency sampleRate : ℝ) : ℝ × ℝ :=
  let nyquist := sampleRate / 2
  if frequency ≤ nyquist then (frequency, 1.0)
  else
    let foldedFreq := jsMod frequency (2 * nyquist)
    let aliasedFreq := if nyquist < foldedFreq then 2 * nyquist - foldedFreq else foldedFreq
    let octavesAboveNyquist := Real.logb 2 (frequency / nyquist)
    let powerLossDb := -6 * octavesAboveNyquist
    let powerLoss := (10 : ℝ) ^ (powerLossDb / 20)
    let clampedPowerLoss := max 0.0001 (min 1.0 powerLoss)
    (aliasedFreq, clampedPowerLoss)

/-! ### Block processor (`processBlock`) -/

/-- Direct Form I biquad recursion: state is `(x1, x2, y1, y2)`, reset to zero
at every `processBlock` call (matching the per-call `let x1 = 0, ...`). -/
def biquadRun (b0 b1 b2 a0 a1 a2 : ℝ) : List ℝ → ℝ × ℝ × ℝ × ℝ → List ℝ
  | [], _ => []
  | x0 :: rest, (x1, x2, y1, y2) =>
    let y0 := (b0 * x0 + b1 * x1 + b2 * x2 - a1 * y1 - a2 * y2) / a0
    y0 :: biquadRun b0 b1 b2 a0 a1 a2 rest (x0, x1, y0, y1)

/-- The `noise` case loop: one `white()`/`pink()` sample per input sample,
threading the generator state. -/
def noiseRun (intensity : ℝ) (noiseType : ℚ) : List ℝ → NoiseState → List ℝ × NoiseState
  | [], s => ([], s)
  | x :: rest, s =>
    let r := if noiseType = 0 then generateWhite s else generatePink s
    let r2 := noiseRun intensity noiseType rest r.2
    ((x + r.1 * intensity) :: r2.1, r2.2)

/-- `processBlock(block, input, time)`.  A disabled block returns the input
buffer itself.  Generators write `output[i] = input[i] + contribution`, the
biquad filters run `biquadRun`, `interpolate` resamples by index arithmetic.
The TypeScript `switch` has an unreachable `default: return input` for
non-`BlockType` strings, which the typed embedding has no counterpart for. -/
def processBlock (block : Block) (input : List ℝ) (time : ℚ) (ns : NoiseState) :
    List ℝ × NoiseState :=
  if block.enabled = false then (input, ns) else
  match block.type with
  | BlockType.sine =>
    let freq : ℝ := (pval block "frequency" : ℚ)
    let powerLoss : ℝ := 1.0
    let amp : ℝ := (pval block "amplitude" : ℚ)
    let phase : ℝ := ((pval block "phase" : ℚ) : ℝ) * Real.pi / 180
    let gain : ℝ := (10 : ℝ) ^ (((pval block "gain" : ℚ) : ℝ) / 20)
    (List.ofFn (fun i : Fin input.length =>
      let t : ℝ := (time : ℝ) + (i : ℝ) / (SAMPLE_RATE : ℝ)
      input.get i + amp * Real.sin (2 * Real.pi * freq * t + phase) * gain * powerLoss), ns)
  | BlockType.square =>
    let freq : ℝ := (pval block "frequency" : ℚ)
    let powerLoss : ℝ := 1.0
    let duty : ℝ := (pval block "dutyCycle" : ℚ)
    let gain : ℝ := (10 : ℝ) ^ (((pval block "gain" : ℚ) : ℝ) / 20)
    (List.ofFn (fun i : Fin input.length =>
      let t : ℝ := (time : ℝ) + (i : ℝ) / (SAMPLE_RATE : ℝ)
      let phase := jsMod (freq * t) 1
      input.get i + (if phase < duty then gain else -gain) * powerLoss), ns)
  | BlockType.sawtooth =>
    let a := applyAliasing ((pval block "frequency" : ℚ) : ℝ) (SAMPLE_RATE : ℝ)
    let amp : ℝ := (pval block "amplitude" : ℚ)
    let phase : ℝ := ((pval block "phase" : ℚ) : ℝ) * Real.pi / 180
    let gain : ℝ := (10 : ℝ) ^ (((pval block "gain" : ℚ) : ℝ) / 20)
    (List.ofFn (fun i : Fin input.length =>
      let t : ℝ := (time : ℝ) + (i : ℝ) / (SAMPLE_RATE : ℝ)
      let sawPhase := jsMod (a.1 * t + phase / (2 * Real.pi)) 1
      input.get i + amp * (2 * sawPhase - 1) * gain * a.2), ns)
  | BlockType.triangle =>
    let a := applyAliasing ((pval block "frequency" : ℚ) : ℝ) (SAMPLE_RATE : ℝ)
    let amp : ℝ := (pval block "amplitude" : ℚ)
    let phase : ℝ := ((pval block "phase" : ℚ) : ℝ) * Real.pi / 180
    let gain : ℝ := (10 : ℝ) ^ (((pval block "gain" : ℚ) : ℝ) / 20)
    (List.ofFn (fun i : Fin input.length =>
      let t : ℝ := (time : ℝ) + (i : ℝ) / (SAMPLE_RATE : ℝ)
      let triPhase := jsMod (a.1 * t + phase / (2 * Real.pi)) 1
      input.get i +
        amp * (if triPhase < 0.5 then 4 * triPhase - 1 else 3 - 4 * triPhase) * gain * a.2), ns)
  | BlockType.pulse =>
    let a := applyAliasing ((pval block "frequency" : ℚ) : ℝ) (SAMPLE_RATE : ℝ)
    let width : ℝ := (pval block "width" : ℚ)
    let amp : ℝ := (pval block "amplitude" : ℚ)
    let gain : ℝ := (10 : ℝ) ^ (((pval block "gain" : ℚ) : ℝ) / 20)
    (List.ofFn (fun i : Fin input.length =>
      let t : ℝ := (time : ℝ) + (i : ℝ) / (SAMPLE_RATE : ℝ)
      let phase := jsMod (a.1 * t) 1
      input.get i + (if phase < width then amp * gain else 0) * a.2), ns)
  | BlockType.chirp =>
    let startFreq : ℝ := (pval block "startFreq" : ℚ)
    let endFreq : ℝ := (pval block "endFreq" : ℚ)
    let dur : ℝ := (pval block "duration" : ℚ)
    let amp : ℝ := (pval block "amplitude" : ℚ)
    let gain : ℝ := (10 : ℝ) ^ (((pval block "gain" : ℚ) : ℝ) / 20)
    (List.ofFn (fun i : Fin input.length =>
      let t : ℝ := (time : ℝ) + (i : ℝ) / (SAMPLE_RATE : ℝ)
      let sweepProgress := jsMod t dur / dur
      let currentFreq := startFreq + (endFreq - startFreq) * sweepProgress
      let a := applyAliasing currentFreq (SAMPLE_RATE : ℝ)
      input.get i + amp * Real.sin (2 * Real.pi * a.1 * t) * gain * a.2), ns)
  | BlockType.noise =>
    noiseRun ((pval block "intensity" : ℚ) : ℝ) (pval block "type") input ns
  | BlockType.lowpass =>
    let cutoff : ℝ := (min (pval block "cutoff") ((SAMPLE_RATE : ℚ) / (21/10)) : ℚ)
    let q : ℝ := (pval block "resonance" : ℚ)
    let omega := 2 * Real.pi * cutoff / (SAMPLE_RATE : ℝ)
    let sin := Real.sin omega
    let cos := Real.cos omega
    let alpha := sin / (2 * q)
    (biquadRun ((1 - cos) / 2) (1 - cos) ((1 - cos) / 2)
      (1 + alpha) (-2 * cos) (1 - alpha) input (0, 0, 0, 0), ns)
  | BlockType.highpass =>
    let cutoff : ℝ := (min (pval block "cutoff") ((SAMPLE_RATE : ℚ) / (21/10)) : ℚ)
    let q : ℝ := (pval block "resonance" : ℚ)
    let omega := 2 * Real.pi * cutoff / (SAMPLE_RATE : ℝ)
    let sin := Real.sin omega
    let cos := Real.cos omega
    let alpha := sin / (2 * q)
    (biquadRun ((1 + cos) / 2) (-(1 + cos)) ((1 + cos) / 2)
      (1 + alpha) (-2 * cos) (1 - alpha) input (0, 0, 0, 0), ns)
  | BlockType.bandpass =>
    let centerFreq : ℝ := (min (pval block "centerFreq") ((SAMPLE_RATE : ℚ) / (21/10)) : ℚ)
    let bandwidth : ℝ := (pval block "bandwidth" : ℚ)
    let omega := 2 * Real.pi * centerFreq / (SAMPLE_RATE : ℝ)
    let sin := Real.sin omega
    let cos := Real.cos omega
    let alpha := sin * Real.sinh (Real.log 2 / 2 * bandwidth * omega / sin)
    (biquadRun alpha 0 (-alpha) (1 + alpha) (-2 * cos) (1 - alpha) input (0, 0, 0, 0), ns)
  | BlockType.notch =>
    let centerFreq : ℝ := (min (pval block "centerFreq") ((SAMPLE_RATE : ℚ) / (21/10)) : ℚ)
    let bandwidth : ℝ := (pval block "bandwidth" : ℚ)
    let depth : ℝ := (pval block "depth" : ℚ)
    let omega := 2 * Real.pi * centerFreq / (SAMPLE_RATE : ℝ)
    let sin := Real.sin omega
    let cos := Real.cos omega
    let alpha := sin * Real.sinh (Real.log 2 / 2 * bandwidth * omega / sin)
    (biquadRun 1 (-2 * cos) 1 (1 + alpha * depth) (-2 * cos) (1 - alpha * depth)
      input (0, 0, 0, 0), ns)
  | BlockType.interpolate =>
    let method := jsRoundQ (pval block "method")
    let resolution := jsRoundQ (pval block "resolution")
    let smoothing : ℝ := (pval block "smoothing" : ℚ)
    let n := input.length
    if method = 0 then
      (List.ofFn (fun i : Fin n =>
        let scaledIndex : ℚ := (i : ℚ) * (resolution : ℚ) / (n : ℚ)
        let baseIndex : ℤ := ⌊scaledIndex⌋
        let fraction : ℝ := (scaledIndex : ℝ) - (baseIndex : ℝ)
        if baseIndex + 1 < (n : ℤ) then
          jsGet input baseIndex * (1 - fraction) + jsGet input (baseIndex + 1) * fraction
        else jsGet input baseIndex), ns)
    else if method = 1 then
      (List.ofFn (fun i : Fin n =>
        let t : ℝ := (i : ℝ) / ((n : ℝ) - 1)
        let smoothedT := t * smoothing + (1 - smoothing) * Real.sin (t * Real.pi) / Real.pi
        let index : ℤ := ⌊smoothedT * ((n : ℝ) - 1)⌋
        jsGet input (min index ((n : ℤ) - 1))), ns)
    else
      (List.ofFn (fun i : Fin n =>
        let t : ℝ := (i : ℝ) / ((n : ℝ) - 1)
        let polyT := t ^ (1 + smoothing)
        let index : ℤ := ⌊polyT * ((n : ℝ) - 1)⌋
        jsGet input (min index ((n : ℤ) - 1))), ns)

/-! ### Signal chain evaluator and waveform cache (`processWaveformLine`) -/

/-- The `{type, params, enabled}` fingerprint of one block that enters the
cache key. -/
def BlockFP : Type := BlockType × List (String × ℚ) × Bool

instance : DecidableEq BlockFP :=
  inferInstanceAs (DecidableEq (BlockType × List (String × ℚ) × Bool))

/-- The source builds the cache key string
`lineId-JSON(blocks.map(b=>({type,params,enabled})))-roundedTime`; the
embedding keeps the same data as a structured tuple (the JSON serialization
is injective up to this data). -/
abbrev WKey : Type := String × List BlockFP × ℚ

/-- Cache key of a line at a time: `roundedTime = Math.floor(time*20)/20`. -/
def wKey (line : WaveformLine) (time : ℚ) : WKey :=
  (line.id, line.blocks.map (fun b => ((b.type, b.params, b.enabled) : BlockFP)),
    (⌊time * 20⌋ : ℚ) / 20)

/-- A waveform-cache value `{ time, points }` (the raw, unquantized time). -/
structure WEntry where
  time : ℚ
  points : List SignalPoint

abbrev WCache : Type := List (WKey × WEntry)

/-- The cache-limiting insert of `processWaveformLine` (lines 400–407): when
`size > 100`, delete the first-inserted key, then `set`. -/
def waveInsert (c : WCache) (k : WKey) (v : WEntry) : WCache :=
  jsMapSet (if 100 < c.length then c.tail else c) k v

/-- The cache-miss computation: zero buffer of `DISPLAY_SAMPLES`, fold the
blocks through `processBlock`, find the peak (floor `0.001`), scale with
`adaptiveScale`, and map to display points. -/
def computePoints (line : WaveformLine) (time : ℚ) (ns : NoiseState) :
    List SignalPoint × NoiseState :=
  let r := line.blocks.foldl (fun (acc : List ℝ × NoiseState) b =>
    processBlock b acc.1 time acc.2) (List.replicate DISPLAY_SAMPLES 0, ns)
  let signal := r.1
  let maxAmp := signal.foldl (fun m s => max m |s|) 0.001
  let adaptiveScale : ℝ := if 0.001 < maxAmp then min 0.4 (0.4 / min maxAmp 100) else 0.4
  (List.ofFn (fun i : Fin signal.length =>
    ⟨(i : ℚ) / (DISPLAY_SAMPLES : ℚ), 0.5 - signal.get i * adaptiveScale⟩), r.2)

/-- `processWaveformLine(line, time)`, with the module-level `waveformCache`
and noise state passed explicitly.  A muted line returns the flat `y = 0.5`
sequence; a cache hit requires the key to match and
`|cached.time - time| < 0.025`; otherwise the result is recomputed and
inserted. -/
def processWaveformLine (line : WaveformLine) (time : ℚ) (cache : WCache)
    (ns : NoiseState) : List SignalPoint × WCache × NoiseState :=
  if line.muted then
    (List.ofFn (fun i : Fin DISPLAY_SAMPLES => ⟨(i : ℚ) / (DISPLAY_SAMPLES : ℚ), 0.5⟩),
      cache, ns)
  else
    match jsMapGet (wKey line time) cache with
    | some cached =>
      if |cached.time - time| < 1/40 then (cached.points, cache, ns)
      else
        let r := computePoints line time ns
        (r.1, waveInsert cache (wKey line time) ⟨time, r.1⟩, r.2)
    | none =>
      let r := computePoints line time ns
      (r.1, waveInsert cache (wKey line time) ⟨time, r.1⟩, r.2)

/-- A sequence of `processWaveformLine` calls at one time, threading cache and
noise state. -/
def runCalls (ls : List WaveformLine) (t : ℚ) (st : WCache × NoiseState) :
    WCache × NoiseState :=
  ls.foldl (fun st l => (processWaveformLine l t st.1 st.2).2) st

/-- Key-level shadow of `waveInsert` for a fresh key. -/
def kInsert (ks : List WKey) (k : WKey) : List WKey :=
  (if 100 < ks.length then ks.tail else ks) ++ [k]

/-- Key-level shadow of a sequence of fresh inserts. -/
def kFold (ks₀ : List WKey) (ks : List WKey) : List WKey := ks.foldl kInsert ks₀

/-! ### Spectral estimator (`generateWaterfallData`) and spectral cache -/

abbrev SKey : Type := ℕ × List ℤ × ℤ

abbrev SCache : Type := List (SKey × WaterfallData)

/-- Coarse fingerprint of the first ten display points:
`points.slice(0,10).map(p => Math.round(p.y*100)).join(',')`. -/
def pointsHash (w : WaveformInput) : List ℤ :=
  (w.points.take 10).map (fun p => jsRound (p.y * 100))

/-- The `fftCache` insert (lines 618–625): evict the oldest entry when
`size > 50`, then `set`. -/
def sInsert (c : SCache) (k : SKey) (v : WaterfallData) : SCache :=
  jsMapSet (if 50 < c.length then c.tail else c) k v

/-- Representative frequency and amplitude proxy a block contributes to the
spectral estimate (the per-type `blockFreq`/`blockAmp` extraction). -/
def waterfallContrib (b : Block) : ℚ × ℝ :=
  match b.type with
  | BlockType.sine | BlockType.square | BlockType.sawtooth | BlockType.triangle =>
    (pOr b "frequency" 0,
      ((pOr b "amplitude" (1/2) : ℚ) : ℝ) * (10 : ℝ) ^ (((pOr b "gain" 0 : ℚ) : ℝ) / 20) * 5)
  | BlockType.pulse =>
    (pOr b "frequency" 0,
      ((pOr b "amplitude" (4/5) : ℚ) : ℝ) * (10 : ℝ) ^ (((pOr b "gain" (-6) : ℚ) : ℝ) / 20) * 5)
  | BlockType.chirp =>
    ((pOr b "startFreq" 100 + pOr b "endFreq" 2000) / 2,
      ((pOr b "amplitude" (1/2) : ℚ) : ℝ) * (10 : ℝ) ^ (((pOr b "gain" (-4) : ℚ) : ℝ) / 20) * 5)
  | BlockType.bandpass | BlockType.notch => (pOr b "centerFreq" 0, 1.5)
  | BlockType.lowpass | BlockType.highpass => (pOr b "cutoff" 0, 1.0)
  | BlockType.noise => (0, ((pOr b "intensity" (1/5) : ℚ) : ℝ) * 0.05)
  | BlockType.interpolate => (0, 0)

/-- Magnitude estimate for bin `i`: enabled blocks whose representative
frequency falls within half a bin of the bin center add
`blockAmp · exp(-|freq-blockFreq|/(freqStep·0.5)) · 10`; noise blocks add a
flat `blockAmp · 0.1`; a still-zero bin falls back to a proxy from the
display points. -/
def binMagnitude (w : WaveformInput) (minFreq freqStep : ℚ) (i : ℕ) : ℝ :=
  let freq := minFreq + (i : ℚ) * freqStep
  let m : ℝ :=
    match w.blocks with
    | none => 0
    | some bs =>
      bs.foldl (fun m b =>
        if b.enabled = false then m else
        let c := waterfallContrib b
        let m1 :=
          if 0 < c.1 ∧ freq - freqStep / 2 ≤ c.1 ∧ c.1 < freq + freqStep / 2 then
            m + c.2 * Real.exp (-|(freq : ℝ) - (c.1 : ℝ)| / ((freqStep : ℝ) * 0.5)) * 10
          else m
        if b.type = BlockType.noise then m1 + c.2 * 0.1 else m1) 0
  if m = 0 ∧ 0 < w.points.length then
    let binIndex := (⌊(i : ℚ) / ((FFT_SIZE / 2 : ℕ) : ℚ) * (w.points.length : ℚ)⌋).toNat
    if binIndex < w.points.length then
      |((w.points.getD binIndex ⟨0, 0⟩).y - 0.5) * 2| * 0.01
    else m
  else m

/-- One fresh (uncached) waterfall frame: `numBins = FFT_SIZE/2` bins from
`minFreq = max(0, centerFreq - bandwidth/2)` in steps of
`bandwidth/numBins`.  (The source also computes an unused local `maxFreq`.) -/
def computeWaterfall (w : WaveformInput) (time centerFreq bandwidth : ℚ) : WaterfallData :=
  let minFreq := max 0 (centerFreq - bandwidth / 2)
  let freqStep := bandwidth / ((FFT_SIZE / 2 : ℕ) : ℚ)
  { frequencies := List.ofFn (fun i : Fin (FFT_SIZE / 2) => minFreq + (i : ℚ) * freqStep)
    magnitudes := List.ofFn (fun i : Fin (FFT_SIZE / 2) => binMagnitude w minFreq freqStep i)
    time := time }

/-- The `.map((waveform, index) => ...)` body with the `fftCache` threaded:
on a hit the cached frame is returned restamped with the current time; on a
miss a fresh frame is computed and inserted. -/
def goWaterfall (time centerFreq bandwidth : ℚ) :
    List (ℕ × WaveformInput) → SCache → List WaterfallData × SCache
  | [], c => ([], c)
  | (idx, w) :: rest, c =>
    let key : SKey := (idx, pointsHash w, ⌊time * 10⌋)
    match jsMapGet key c with
    | some cached =>
      let r := goWaterfall time centerFreq bandwidth rest c
      ({ cached with time := time } :: r.1, r.2)
    | none =>
      let fresh := computeWaterfall w time centerFreq bandwidth
      let r := goWaterfall time centerFreq bandwidth rest (sInsert c key fresh)
      (fresh :: r.1, r.2)

/-- `generateWaterfallData(waveforms, time, centerFreq, bandwidth)`.  Invalid
input (empty or oversized list, non-positive frequency parameters) yields
`[]`; otherwise hidden/muted/oversized waveforms are filtered out and each
survivor produces one frame.  (The trailing `.filter` of the source only
re-checks `Array.isArray` and is vacuous in the embedding; the `try/catch`
wrapper never fires because every step is total.) -/
def generateWaterfallData (waveforms : List WaveformInput) (time centerFreq bandwidth : ℚ)
    (cache : SCache) : List WaterfallData × SCache :=
  if waveforms.length = 0 then ([], cache)
  else if 100 < waveforms.length then ([], cache)
  else if centerFreq ≤ 0 ∨ bandwidth ≤ 0 then ([], cache)
  else
    let validatedWaveforms := waveforms.filter
      (fun w => w.points.length ≤ 10000 && w.visible && !w.muted)
    goWaterfall time centerFreq bandwidth validatedWaveforms.enum cache

/-! ### Audio buffer synthesizer (`generateAudioBuffer`) -/

/-- Per-sample contribution of one block on the audio path (independent
re-derivation of the block formulas, with `?.value || default` parameter
access and aliasing applied to every oscillator type). -/
def audioBlockSample (b : Block) (t : ℝ) (ns : NoiseState) : ℝ × NoiseState :=
  if b.enabled = false then (0, ns) else
  match b.type with
  | BlockType.sine =>
    let amp : ℝ := (pOr b "amplitude" (1/2) : ℚ)
    let gain : ℝ := (10 : ℝ) ^ (((pOr b "gain" 0 : ℚ) : ℝ) / 20)
    let phase : ℝ := ((pOr b "phase" 0 : ℚ) : ℝ) * Real.pi / 180
    let a := applyAliasing ((pOr b "frequency" 440 : ℚ) : ℝ) (SAMPLE_RATE : ℝ)
    (amp * Real.sin (2 * Real.pi * a.1 * t + phase) * gain * a.2, ns)
  | BlockType.square =>
    let duty : ℝ := (pOr b "dutyCycle" (1/2) : ℚ)
    let gain : ℝ := (10 : ℝ) ^ (((pOr b "gain" (-10) : ℚ) : ℝ) / 20)
    let a := applyAliasing ((pOr b "frequency" 220 : ℚ) : ℝ) (SAMPLE_RATE : ℝ)
    let phase := jsMod (a.1 * t) 1
    ((if phase < duty then gain else -gain) * a.2, ns)
  | BlockType.sawtooth =>
    let amp : ℝ := (pOr b "amplitude" (2/5) : ℚ)
    let phase : ℝ := ((pOr b "phase" 0 : ℚ) : ℝ) * Real.pi / 180
    let gain : ℝ := (10 : ℝ) ^ (((pOr b "gain" (-2) : ℚ) : ℝ) / 20)
    let a := applyAliasing ((pOr b "frequency" 330 : ℚ) : ℝ) (SAMPLE_RATE : ℝ)
    let sawPhase := jsMod (a.1 * t + phase / (2 * Real.pi)) 1
    (amp * (2 * sawPhase - 1) * gain * a.2, ns)
  | BlockType.triangle =>
    let amp : ℝ := (pOr b "amplitude" (3/5) : ℚ)
    let phase : ℝ := ((pOr b "phase" 0 : ℚ) : ℝ) * Real.pi / 180
    let gain : ℝ := (10 : ℝ) ^ (((pOr b "gain" (-3) : ℚ) : ℝ) / 20)
    let a := applyAliasing ((pOr b "frequency" 550 : ℚ) : ℝ) (SAMPLE_RATE : ℝ)
    let triPhase := jsMod (a.1 * t + phase / (2 * Real.pi)) 1
    (amp * (if triPhase < 0.5 then 4 * triPhase - 1 else 3 - 4 * triPhase) * gain * a.2, ns)
  | BlockType.pulse =>
    let width : ℝ := (pOr b "width" (1/10) : ℚ)
    let amp : ℝ := (pOr b "amplitude" (4/5) : ℚ)
    let gain : ℝ := (10 : ℝ) ^ (((pOr b "gain" (-6) : ℚ) : ℝ) / 20)
    let a := applyAliasing ((pOr b "frequency" 1000 : ℚ) : ℝ) (SAMPLE_RATE : ℝ)
    let phase := jsMod (a.1 * t) 1
    ((if phase < width then amp * gain else 0) * a.2, ns)
  | BlockType.chirp =>
    let startFreq : ℝ := (pOr b "startFreq" 100 : ℚ)
    let endFreq : ℝ := (pOr b "endFreq" 2000 : ℚ)
    let dur : ℝ := (pOr b "duration" 1 : ℚ)
    let amp : ℝ := (pOr b "amplitude" (1/2) : ℚ)
    let gain : ℝ := (10 : ℝ) ^ (((pOr b "gain" (-4) : ℚ) : ℝ) / 20)
    let sweepProgress := jsMod t dur / dur
    let currentFreq := startFreq + (endFreq - startFreq) * sweepProgress
    let a := applyAliasing currentFreq (SAMPLE_RATE : ℝ)
    (amp * Real.sin (2 * Real.pi * a.1 * t) * gain * a.2, ns)
  | BlockType.noise =>
    let intensity : ℝ := (pOr b "intensity" (1/5) : ℚ)
    let noiseType := pOr b "type" 0
    let r := if noiseType = 0 then generateWhite ns else generatePink ns
    (r.1 * intensity, r.2)
  | _ => (0, ns)

/-- Fallback when a line has no blocks: linear interpolation over its display
points at position `(i / sampleCount) · points.length`. -/
def fallbackSample (w : WaveformInput) (i sampleCount : ℕ) : ℝ :=
  let pointIndex : ℚ := (i : ℚ) / (sampleCount : ℚ) * (w.points.length : ℚ)
  let baseIndex : ℕ := (⌊pointIndex⌋).toNat
  let fraction : ℝ := (pointIndex : ℝ) - (baseIndex : ℝ)
  if baseIndex < w.points.length - 1 then
    let y1 := ((w.points.getD baseIndex ⟨0, 0⟩).y - 0.5) * 2
    let y2 := ((w.points.getD (baseIndex + 1) ⟨0, 0⟩).y - 0.5) * 2
    y1 * (1 - fraction) + y2 * fraction
  else if baseIndex < w.points.length then
    ((w.points.getD baseIndex ⟨0, 0⟩).y - 0.5) * 2
  else 0

/-- One line's contribution to output sample `i`: block synthesis when the
line has a non-empty block list, otherwise the display-point fallback. -/
def audioLineSample (w : WaveformInput) (i sampleCount : ℕ) (ns : NoiseState) :
    ℝ × NoiseState :=
  match w.blocks with
  | some bs =>
    if 0 < bs.length then
      bs.foldl (fun acc b =>
        let r := audioBlockSample b ((i : ℝ) / (SAMPLE_RATE : ℝ)) acc.2
        (acc.1 + r.1, r.2)) (0, ns)
    else (fallbackSample w i sampleCount, ns)
  | none => (fallbackSample w i sampleCount, ns)

/-- Sum of the active lines' contributions to sample `i`. -/
def sumLineSamples (act : List WaveformInput) (i sampleCount : ℕ) (ns : NoiseState) :
    ℝ × NoiseState :=
  act.foldl (fun acc w =>
    let r := audioLineSample w i sampleCount acc.2
    (acc.1 + r.1, r.2)) (0, ns)

/-- The sample loop: `k` samples remain, `i` is the current index; each output
sample is `tanh((sum / max(1, activeCount)) · 0.8)`. -/
def audioSamples (act : List WaveformInput) (nActive sampleCount : ℕ) :
    ℕ → ℕ → NoiseState → List ℝ × NoiseState
  | 0, _, ns => ([], ns)
  | k + 1, i, ns =>
    let r := sumLineSamples act i sampleCount ns
    let v := Real.tanh (r.1 / max 1 (nActive : ℝ) * 0.8)
    let rest := audioSamples act nActive sampleCount k (i + 1) r.2
    (v :: rest.1, rest.2)

/-- `generateAudioBuffer(waveforms, duration)`: a buffer of
`floor(SAMPLE_RATE · duration)` samples; all zero when no line is visible and
unmuted, otherwise synthesized per sample with soft limiting. -/
def generateAudioBuffer (waveforms : List WaveformInput) (duration : ℚ)
    (ns : NoiseState) : List ℝ × NoiseState :=
  let sampleCount := (⌊(SAMPLE_RATE : ℚ) * duration⌋).toNat
  let activeWaveforms := waveforms.filter (fun w => w.visible && !w.muted)
  if activeWaveforms.length = 0 then (List.replicate sampleCount 0, ns)
  else audioSamples activeWaveforms activeWaveforms.length sampleCount sampleCount 0 ns

/-! ### Concrete inputs used by witnesses and counterexamples -/

/-- A deterministic noise oracle in its initial state. -/
def ns0 : NoiseState := ⟨fun _ => 0, 0, 0, 0, 0⟩

/-- An unmuted, visible line with no blocks whose id is `i` letters long, so
distinct indices give distinct cache keys. -/
def mkWLine (i : ℕ) : WaveformLine :=
  { id := String.mk (List.replicate i 'a'), name := "", blocks := [], color := ""
    muted := false, visible := true }

def cexLines (n : ℕ) : List WaveformLine := (List.range n).map mkWLine

/-- A muted line used by the muted-evaluation witness. -/
def mLine0 : WaveformLine :=
  { id := "m", name := "", blocks := [], color := "", muted := true, visible := true }

/-- A visible, unmuted waveform input with no points and no blocks. -/
def wEmpty : WaveformInput :=
  { points := [], color := "", visible := true, muted := false, blocks := none }

/-- A disabled sine block used by the disabled-block witness. -/
def bDisabled : Block :=
  { id := "b", type := BlockType.sine, params := [("frequency", 440)], enabled := false }

/-! ## Theorems -/

/-! ### Generic length lemmas for the stateful loops -/

theorem biquadRun_length (b0 b1 b2 a0 a1 a2 : ℝ) (l : List ℝ) (st : ℝ × ℝ × ℝ × ℝ) :
    (biquadRun b0 b1 b2 a0 a1 a2 l st).length = l.length := by
  induction l generalizing st with
  | nil => rfl
  | cons x rest ih =>
    obtain ⟨x1, x2, y1, y2⟩ := st
    simp [biquadRun, ih]

theorem noiseRun_length (intensity : ℝ) (noiseType : ℚ) (l : List ℝ) (s : NoiseState) :
    (noiseRun intensity noiseType l s).1.length = l.length := by
  induction l generalizing s with
  | nil => rfl
  | cons x rest ih => simp [noiseRun, ih]

theorem audioSamples_length (act : List WaveformInput) (nActive sampleCount : ℕ)
    (k i : ℕ) (ns : NoiseState) :
    (audioSamples act nActive sampleCount k i ns).1.length = k := by
  induction k generalizing i ns with
  | zero => rfl
  | succ k ih => simp [audioSamples, ih]

/-! ### C4 — a disabled block is the identity -/

/-- C4: Processing a block with `enabled = false` is the identity: for every
block of any type, every input buffer and every time, `processBlock` returns
the input buffer itself (and leaves the noise state untouched). -/
theorem C4_disabled_identity (b : Block) (input : List ℝ) (t : ℚ) (ns : NoiseState)
    (h : b.enabled = false) : processBlock b input t ns = (input, ns) := by
  unfold processBlock
  rw [if_pos h]

/-- Witness for C4 at a concrete disabled block and buffer. -/
theorem C4_disabled_identity_witness :
    bDisabled.enabled = false ∧ processBlock bDisabled [1, 2] 0 ns0 = ([1, 2], ns0) :=
  ⟨rfl, C4_disabled_identity bDisabled [1, 2] 0 ns0 rfl⟩

/-! ### C9 — a muted line evaluates to the flat `y = 0.5` sequence -/

/-- C9: For every muted line and every time, `processWaveformLine` returns
exactly `DISPLAY_SAMPLES` points with `x = i/DISPLAY_SAMPLES` and `y = 0.5`,
regardless of the line's blocks, leaving cache and noise state untouched. -/
theorem C9_muted_flat (line : WaveformLine) (t : ℚ) (c : WCache) (ns : NoiseState)
    (h : line.muted = true) :
    processWaveformLine line t c ns =
      (List.ofFn (fun i : Fin DISPLAY_SAMPLES => ⟨(i : ℚ) / (DISPLAY_SAMPLES : ℚ), 0.5⟩),
        c, ns) := by
  unfold processWaveformLine
  rw [if_pos h]

/-- Witness for C9 at a concrete muted line. -/
theorem C9_muted_flat_witness :
    mLine0.muted = true ∧
      processWaveformLine mLine0 0 [] ns0 =
        (List.ofFn (fun i : Fin DISPLAY_SAMPLES => ⟨(i : ℚ) / (DISPLAY_SAMPLES : ℚ), 0.5⟩),
          [], ns0) :=
  ⟨rfl, C9_muted_flat mLine0 0 [] ns0 rfl⟩

/-! ### C10 — `processBlock` preserves the buffer length -/

/-- C10: For every block (any of the twelve types, enabled or disabled),
every input buffer and every time, the buffer returned by `processBlock` has
exactly as many samples as the input buffer. -/
theorem C10_length_preservation (b : Block) (input : List ℝ) (t : ℚ) (ns : NoiseState) :
    (processBlock b input t ns).1.length = input.length := by
  obtain ⟨bid, ty, ps, en⟩ := b
  unfold processBlock
  by_cases hen : en = false
  · simp [hen]
  · cases ty <;> simp [hen, biquadRun_length, noiseRun_length]
    split_ifs <;> simp

/-! ### C6 — invalid spectral input degrades to the empty result -/

/-- C6: Whenever `centerFreq ≤ 0`, or `bandwidth ≤ 0`, or the waveform list is
empty or longer than 100, `generateWaterfallData` returns the empty list and
leaves the spectral cache untouched (the embedding is total, so no exception
can escape). -/
theorem C6_invalid_input_empty (waveforms : List WaveformInput) (time cf bw : ℚ)
    (c : SCache)
    (h : cf ≤ 0 ∨ bw ≤ 0 ∨ waveforms = [] ∨ 100 < waveforms.length) :
    generateWaterfallData waveforms time cf bw c = ([], c) := by
  unfold generateWaterfallData
  split_ifs with h1 h2 h3
  · rfl
  · rfl
  · rfl
  · rcases h with h | h | h | h
    · exact absurd (Or.inl h) h3
    · exact absurd (Or.inr h) h3
    · exact absurd (by simp [h]) h1
    · exact absurd h h2

/-- Witness for C6 at a concrete invalid call (negative center frequency). -/
theorem C6_invalid_input_empty_witness :
    ((-1 : ℚ) ≤ 0 ∨ (2 : ℚ) ≤ 0 ∨ [wEmpty] = [] ∨ 100 < [wEmpty].length) ∧
      generateWaterfallData [wEmpty] 0 (-1) 2 [] = ([], []) :=
  ⟨Or.inl (by norm_num),
    C6_invalid_input_empty [wEmpty] 0 (-1) 2 [] (Or.inl (by norm_num))⟩

/-! ### C7 — soft limiting keeps every sample strictly inside `(-1, 1)` -/

theorem tanh_in_unit (s : ℝ) : -1 < Real.tanh s ∧ Real.tanh s < 1 := by
  have hc := Real.cosh_pos s
  have hsq : |Real.sinh s| ^ 2 < Real.cosh s ^ 2 := by
    rw [sq_abs, Real.cosh_sq]
    linarith
  have habs : |Real.sinh s| < Real.cosh s := lt_of_pow_lt_pow_left₀ 2 hc.le hsq
  rw [abs_lt] at habs
  rw [Real.tanh_eq_sinh_div_cosh]
  constructor
  · rw [lt_div_iff₀ hc]
    linarith [habs.1]
  · rw [div_lt_iff₀ hc]
    linarith [habs.2]

theorem audioSamples_mem_unit (act : List WaveformInput) (nActive sampleCount : ℕ) :
    ∀ (k i : ℕ) (ns : NoiseState), ∀ x ∈ (audioSamples act nActive sampleCount k i ns).1,
      -1 < x ∧ x < 1 := by
  intro k
  induction k with
  | zero =>
    intro i ns x hx
    simp [audioSamples] at hx
  | succ k ih =>
    intro i ns x hx
    simp only [audioSamples, List.mem_cons] at hx
    rcases hx with hx | hx
    · rw [hx]
      exact tanh_in_unit _
    · exact ih _ _ _ hx

/-- C7: Every sample produced by `generateAudioBuffer` lies strictly within
`(-1, 1)`, for every input line list, duration and noise oracle: with no
active line the buffer is identically `0`, and otherwise every sample passes
through `tanh(sample · 0.8)`, whose value is always in `(-1, 1)`. -/
theorem C7_soft_limit_range (waveforms : List WaveformInput) (duration : ℚ)
    (ns : NoiseState) :
    ∀ x ∈ (generateAudioBuffer waveforms duration ns).1, -1 < x ∧ x < 1 := by
  intro x hx
  unfold generateAudioBuffer at hx
  dsimp only at hx
  split_ifs at hx with h
  · rw [List.mem_replicate] at hx
    rw [hx.2]
    norm_num
  · exact audioSamples_mem_unit _ _ _ _ _ _ x hx

/-- Witness for C7 at a concrete call (empty line list, one second). -/
theorem C7_soft_limit_range_witness :
    (0 : ℝ) ∈ (generateAudioBuffer [] 1 ns0).1 ∧ (-1 < (0 : ℝ) ∧ (0 : ℝ) < 1) := by
  have hbuf : (generateAudioBuffer [] 1 ns0).1
      = List.replicate (⌊(SAMPLE_RATE : ℚ) * 1⌋).toNat 0 := by
    simp [generateAudioBuffer]
  have hn : (⌊(SAMPLE_RATE : ℚ) * 1⌋).toNat = 44100 := by
    norm_num [SAMPLE_RATE]
    rfl
  have hmem : (0 : ℝ) ∈ (generateAudioBuffer [] 1 ns0).1 := by
    rw [hbuf, hn]
    exact List.mem_replicate.mpr ⟨by norm_num, rfl⟩
  exact ⟨hmem, C7_soft_limit_range [] 1 ns0 0 hmem⟩

/-! ### C8 — buffer length and the all-zero degenerate case -/

/-- C8: For every nonnegative duration, `generateAudioBuffer` returns exactly
`floor(SAMPLE_RATE · duration)` samples, and when no line is visible and
unmuted (in particular for the empty list) the returned buffer is all
zeros. -/
theorem C8_buffer_length_zero (waveforms : List WaveformInput) (duration : ℚ)
    (ns : NoiseState) (h : 0 ≤ duration) :
    (((generateAudioBuffer waveforms duration ns).1.length : ℤ)
        = ⌊(SAMPLE_RATE : ℚ) * duration⌋) ∧
      (waveforms.filter (fun w => w.visible && !w.muted) = [] →
        (generateAudioBuffer waveforms duration ns).1
          = List.replicate (⌊(SAMPLE_RATE : ℚ) * duration⌋).toNat 0) := by
  have hnn : 0 ≤ ⌊(SAMPLE_RATE : ℚ) * duration⌋ :=
    Int.floor_nonneg.mpr (mul_nonneg (by norm_num) h)
  constructor
  · unfold generateAudioBuffer
    dsimp only
    split_ifs with hact
    · simp [Int.toNat_of_nonneg hnn]
    · simp [audioSamples_length, Int.toNat_of_nonneg hnn]
  · intro hf
    simp [generateAudioBuffer, hf]

/-- Witness for C8 at a concrete call (empty line list, one second). -/
theorem C8_buffer_length_zero_witness :
    (0 : ℚ) ≤ 1 ∧
      ((((generateAudioBuffer [] 1 ns0).1.length : ℤ) = ⌊(SAMPLE_RATE : ℚ) * 1⌋) ∧
        (([] : List WaveformInput).filter (fun w => w.visible && !w.muted) = [] →
          (generateAudioBuffer [] 1 ns0).1
            = List.replicate (⌊(SAMPLE_RATE : ℚ) * 1⌋).toNat 0)) :=
  ⟨by norm_num, C8_buffer_length_zero [] 1 ns0 (by norm_num)⟩

/-! ### C3 — the aliasing model -/

theorem jsMod_nonneg_lt {a b : ℝ} (ha : 0 ≤ a) (hb : 0 < b) :
    0 ≤ jsMod a b ∧ jsMod a b < b := by
  unfold jsMod jsTrunc
  have hq : 0 ≤ a / b := div_nonneg ha hb.le
  rw [if_pos hq]
  have hb0 : b ≠ 0 := ne_of_gt hb
  have h2 : b * (a / b) = a := by field_simp
  have h1 : a - b * (⌊a / b⌋ : ℝ) = b * Int.fract (a / b) := by
    rw [Int.fract, mul_sub, h2]
  rw [h1]
  constructor
  · exact mul_nonneg hb.le (Int.fract_nonneg _)
  · calc b * Int.fract (a / b) < b * 1 :=
        mul_lt_mul_of_pos_left (Int.fract_lt_one _) hb
    _ = b := mul_one b

theorem applyAliasing_of_le {f sr : ℝ} (h : f ≤ sr / 2) :
    applyAliasing f sr = (f, 1.0) := by
  unfold applyAliasing
  rw [if_pos h]

theorem applyAliasing_snd_of_lt {f sr : ℝ} (h : sr / 2 < f) :
    (applyAliasing f sr).2
      = max 0.0001 (min 1.0 ((10 : ℝ) ^ (-6 * Real.logb 2 (f / (sr / 2)) / 20))) := by
  unfold applyAliasing
  rw [if_neg (not_le.mpr h)]

theorem applyAliasing_fst_range {f sr : ℝ} (hsr : 0 < sr) (h : sr / 2 < f) :
    0 ≤ (applyAliasing f sr).1 ∧ (applyAliasing f sr).1 ≤ sr / 2 := by
  have hb : 0 < 2 * (sr / 2) := by linarith
  obtain ⟨hm0, hm1⟩ := jsMod_nonneg_lt (a := f) (b := 2 * (sr / 2)) (by linarith) hb
  unfold applyAliasing
  rw [if_neg (not_le.mpr h)]
  dsimp only
  split_ifs with hsplit
  · exact ⟨by linarith, by linarith⟩
  · exact ⟨hm0, not_lt.mp hsplit⟩

/-- On the first octave above Nyquist the clamp is inactive, so the power
loss is exactly `10^(-6·log2(f/nyquist)/20)`. -/
theorem applyAliasing_powerLoss_octave {f sr : ℝ} (hsr : 0 < sr) (h1 : sr / 2 < f)
    (h2 : f ≤ sr) :
    (applyAliasing f sr).2 = (10 : ℝ) ^ (-6 * Real.logb 2 (f / (sr / 2)) / 20) := by
  have hny : 0 < sr / 2 := by linarith
  have hfq : 1 < f / (sr / 2) := (one_lt_div hny).mpr h1
  have hL0 : 0 < Real.logb 2 (f / (sr / 2)) := Real.logb_pos (by norm_num) hfq
  have hq2 : f / (sr / 2) ≤ 2 := by
    rw [div_le_iff₀ hny]
    linarith
  have hL1 : Real.logb 2 (f / (sr / 2)) ≤ 1 := by
    have hle := (Real.logb_le_logb (b := 2) (by norm_num) (by linarith) (by norm_num)).mpr hq2
    rwa [Real.logb_self_eq_one (by norm_num)] at hle
  have he_neg : -6 * Real.logb 2 (f / (sr / 2)) / 20 < 0 := by linarith
  have he_ge : -3 / 10 ≤ -6 * Real.logb 2 (f / (sr / 2)) / 20 := by linarith
  have hlt1 : (10 : ℝ) ^ (-6 * Real.logb 2 (f / (sr / 2)) / 20) < 1 :=
    Real.rpow_lt_one_of_one_lt_of_neg (by norm_num) he_neg
  have h4 : (10 : ℝ) ^ ((-4 : ℝ)) = 0.0001 := by
    rw [show ((-4 : ℝ)) = ((-4 : ℤ) : ℝ) by norm_num, Real.rpow_intCast]
    norm_num
  have hgt : (0.0001 : ℝ) < (10 : ℝ) ^ (-6 * Real.logb 2 (f / (sr / 2)) / 20) := by
    rw [← h4]
    exact (Real.rpow_lt_rpow_left_iff (by norm_num)).mpr (by linarith)
  rw [applyAliasing_snd_of_lt h1]
  rw [min_eq_right (by linarith)]
  exact max_eq_right (by linarith)

/-- C3: For every positive sample rate: (1) a frequency at or below Nyquist
passes through unchanged with power loss `1.0`; (2) a frequency above Nyquist
folds into `[0, nyquist]` and its power loss equals
`10^(-6·log2(f/nyquist)/20)` clamped to `[0.0001, 1]`; (3) within the first
octave above Nyquist the power loss is strictly decreasing in `f`. -/
theorem C3_aliasing (sampleRate : ℝ) (hsr : 0 < sampleRate) :
    (∀ f, f ≤ sampleRate / 2 → applyAliasing f sampleRate = (f, 1.0)) ∧
      (∀ f, sampleRate / 2 < f →
        (0 ≤ (applyAliasing f sampleRate).1 ∧
          (applyAliasing f sampleRate).1 ≤ sampleRate / 2) ∧
        (applyAliasing f sampleRate).2
          = max 0.0001
              (min 1.0 ((10 : ℝ) ^ (-6 * Real.logb 2 (f / (sampleRate / 2)) / 20))) ∧
        0.0001 ≤ (applyAliasing f sampleRate).2 ∧ (applyAliasing f sampleRate).2 ≤ 1) ∧
      (∀ f1 f2, sampleRate / 2 < f1 → f1 < f2 → f2 ≤ sampleRate →
        (applyAliasing f2 sampleRate).2 < (applyAliasing f1 sampleRate).2) := by
  have hny : 0 < sampleRate / 2 := by linarith
  refine ⟨fun f hf => applyAliasing_of_le hf, fun f hf => ?_, fun f1 f2 h1 h12 h2 => ?_⟩
  · refine ⟨applyAliasing_fst_range hsr hf, applyAliasing_snd_of_lt hf, ?_, ?_⟩
    · rw [applyAliasing_snd_of_lt hf]
      exact le_max_left _ _
    · rw [applyAliasing_snd_of_lt hf]
      exact max_le (by norm_num) (le_trans (min_le_left _ _) (by norm_num))
  · rw [applyAliasing_powerLoss_octave hsr h1 (by linarith),
      applyAliasing_powerLoss_octave hsr (by linarith) h2]
    apply (Real.rpow_lt_rpow_left_iff (by norm_num)).mpr
    have hdiv : f1 / (sampleRate / 2) < f2 / (sampleRate / 2) := by gcongr
    have hmono : Real.logb 2 (f1 / (sampleRate / 2)) < Real.logb 2 (f2 / (sampleRate / 2)) :=
      Real.logb_lt_logb (by norm_num) (div_pos (by linarith) hny) hdiv
    linarith

/-- Witness for C3 at sample rate `2`: `f = 1` passes through, `f = 3/2` folds
into range, and power loss at `2` is below power loss at `3/2`. -/
theorem C3_aliasing_witness :
    (0 : ℝ) < 2 ∧ applyAliasing 1 2 = (1, 1.0) ∧
      (0 ≤ (applyAliasing (3 / 2) 2).1 ∧ (applyAliasing (3 / 2) 2).1 ≤ 2 / 2) ∧
      (applyAliasing 2 2).2 < (applyAliasing (3 / 2) 2).2 := by
  obtain ⟨p1, p2, p3⟩ := C3_aliasing 2 (by norm_num)
  exact ⟨by norm_num, p1 1 (by norm_num), (p2 (3 / 2) (by norm_num)).1,
    p3 (3 / 2) 2 (by norm_num) (by norm_num) (by norm_num)⟩

/-! ### JS `Map` lemmas -/

theorem jsMapGet_eq_none_iff {α β : Type} [DecidableEq α] (m : List (α × β)) (k : α) :
    jsMapGet k m = none ↔ k ∉ m.map Prod.fst := by
  induction m with
  | nil => simp [jsMapGet]
  | cons p rest ih =>
    by_cases h : p.1 = k
    · simp [jsMapGet, h]
    · have h' : ¬k = p.1 := fun hh => h hh.symm
      simp [jsMapGet, h, h', ih]

theorem jsMapGet_append_of_none {α β : Type} [DecidableEq α] {m1 : List (α × β)}
    (m2 : List (α × β)) (k : α) (h : jsMapGet k m1 = none) :
    jsMapGet k (m1 ++ m2) = jsMapGet k m2 := by
  induction m1 with
  | nil => rfl
  | cons p rest ih =>
    by_cases hp : p.1 = k
    · simp [jsMapGet, hp] at h
    · simp only [jsMapGet, if_neg hp] at h
      simpa [jsMapGet, hp] using ih h

theorem jsMapGet_tail_none {α β : Type} [DecidableEq α] {m : List (α × β)} {k : α}
    (h : jsMapGet k m = none) : jsMapGet k m.tail = none := by
  cases m with
  | nil => rfl
  | cons p rest =>
    by_cases hp : p.1 = k
    · simp [jsMapGet, hp] at h
    · simpa using (by simpa only [jsMapGet, if_neg hp] using h : jsMapGet k rest = none)

theorem jsMapGet_replace {α β : Type} [DecidableEq α] (m : List (α × β)) (k : α) (v : β)
    (h : (jsMapGet k m).isSome) :
    jsMapGet k (m.map (fun p => if p.1 = k then (k, v) else p)) = some v := by
  induction m with
  | nil => simp [jsMapGet] at h
  | cons p rest ih =>
    by_cases hp : p.1 = k
    · simp [jsMapGet, hp]
    · have h' : (jsMapGet k rest).isSome := by
        simpa only [jsMapGet, if_neg hp] using h
      simpa [jsMapGet, hp] using ih h'

theorem jsMapGet_jsMapSet_self {α β : Type} [DecidableEq α] (m : List (α × β)) (k : α)
    (v : β) : jsMapGet k (jsMapSet m k v) = some v := by
  unfold jsMapSet
  split_ifs with h
  · exact jsMapGet_replace m k v h
  · have hn : jsMapGet k m = none := by
      cases hh : jsMapGet k m with
      | none => rfl
      | some w => rw [hh] at h; simp at h
    rw [jsMapGet_append_of_none _ _ hn]
    simp [jsMapGet]

theorem waveInsert_of_none {c : WCache} {k : WKey} (v : WEntry)
    (h : jsMapGet k c = none) :
    waveInsert c k v = (if 100 < c.length then c.tail else c) ++ [(k, v)] := by
  have hpre : jsMapGet k (if 100 < c.length then c.tail else c) = none := by
    split_ifs
    · exact jsMapGet_tail_none h
    · exact h
  unfold waveInsert jsMapSet
  rw [if_neg (by simp [hpre])]

theorem jsMapGet_waveInsert_self (c : WCache) (k : WKey) (v : WEntry) :
    jsMapGet k (waveInsert c k v) = some v :=
  jsMapGet_jsMapSet_self _ _ _

/-! ### `processWaveformLine` branch lemmas -/

theorem processWaveformLine_miss {line : WaveformLine} {t : ℚ} {c : WCache}
    {ns : NoiseState} (hm : line.muted = false)
    (h : jsMapGet (wKey line t) c = none) :
    processWaveformLine line t c ns =
      ((computePoints line t ns).1,
        waveInsert c (wKey line t) ⟨t, (computePoints line t ns).1⟩,
        (computePoints line t ns).2) := by
  unfold processWaveformLine
  rw [if_neg (by simp [hm]), h]

theorem processWaveformLine_hit {line : WaveformLine} {t : ℚ} {c : WCache}
    {ns : NoiseState} {cached : WEntry} (hm : line.muted = false)
    (h : jsMapGet (wKey line t) c = some cached) (htol : |cached.time - t| < 1 / 40) :
    processWaveformLine line t c ns = (cached.points, c, ns) := by
  unfold processWaveformLine
  rw [if_neg (by simp [hm]), h]
  dsimp only
  rw [if_pos htol]

theorem processWaveformLine_stale {line : WaveformLine} {t : ℚ} {c : WCache}
    {ns : NoiseState} {cached : WEntry} (hm : line.muted = false)
    (h : jsMapGet (wKey line t) c = some cached)
    (htol : ¬|cached.time - t| < 1 / 40) :
    processWaveformLine line t c ns =
      ((computePoints line t ns).1,
        waveInsert c (wKey line t) ⟨t, (computePoints line t ns).1⟩,
        (computePoints line t ns).2) := by
  unfold processWaveformLine
  rw [if_neg (by simp [hm]), h]
  dsimp only
  rw [if_neg htol]

/-! ### C5 — waveform-cache hit and recompute semantics -/

/-- C5: After an unmuted miss at time `t1`, a second call whose time `t2`
falls in the same `0.05 s` bucket and within `0.025 s` of `t1` returns exactly
the stored points object; a second call whose time `t3` falls in the same
bucket but at least `0.025 s` away recomputes and re-inserts a fresh entry
stamped `t3`. -/
theorem C5_cache_hit_semantics (line : WaveformLine) (t1 t2 t3 : ℚ) (c : WCache)
    (ns : NoiseState) (hm : line.muted = false)
    (hmiss : jsMapGet (wKey line t1) c = none)
    (hb2 : ⌊t2 * 20⌋ = ⌊t1 * 20⌋) (hb3 : ⌊t3 * 20⌋ = ⌊t1 * 20⌋)
    (hnear : |t1 - t2| < 1 / 40) (hfar : 1 / 40 ≤ |t1 - t3|) :
    (processWaveformLine line t2 (processWaveformLine line t1 c ns).2.1
        (processWaveformLine line t1 c ns).2.2).1
      = (processWaveformLine line t1 c ns).1 ∧
    (processWaveformLine line t3 (processWaveformLine line t1 c ns).2.1
        (processWaveformLine line t1 c ns).2.2).1
      = (computePoints line t3 (processWaveformLine line t1 c ns).2.2).1 ∧
    jsMapGet (wKey line t1)
        (processWaveformLine line t3 (processWaveformLine line t1 c ns).2.1
          (processWaveformLine line t1 c ns).2.2).2.1
      = some ⟨t3, (computePoints line t3 (processWaveformLine line t1 c ns).2.2).1⟩ := by
  have hkey2 : wKey line t2 = wKey line t1 := by unfold wKey; rw [hb2]
  have hkey3 : wKey line t3 = wKey line t1 := by unfold wKey; rw [hb3]
  have hc1 := @processWaveformLine_miss line t1 c ns hm hmiss
  rw [hc1]
  dsimp only
  have hl1 : jsMapGet (wKey line t1)
      (waveInsert c (wKey line t1) ⟨t1, (computePoints line t1 ns).1⟩)
      = some ⟨t1, (computePoints line t1 ns).1⟩ :=
    jsMapGet_waveInsert_self _ _ _
  have hl2 : jsMapGet (wKey line t2)
      (waveInsert c (wKey line t1) ⟨t1, (computePoints line t1 ns).1⟩)
      = some ⟨t1, (computePoints line t1 ns).1⟩ := by rw [hkey2]; exact hl1
  have hl3 : jsMapGet (wKey line t3)
      (waveInsert c (wKey line t1) ⟨t1, (computePoints line t1 ns).1⟩)
      = some ⟨t1, (computePoints line t1 ns).1⟩ := by rw [hkey3]; exact hl1
  refine ⟨?_, ?_, ?_⟩
  · rw [processWaveformLine_hit hm hl2 (by simpa using hnear)]
  · rw [processWaveformLine_stale hm hl3 (by simpa using not_lt.mpr hfar)]
  · rw [processWaveformLine_stale hm hl3 (by simpa using not_lt.mpr hfar)]
    dsimp only
    rw [← hkey3]
    exact jsMapGet_waveInsert_self _ _ _

/-- Witness for C5 at a concrete line and times `0`, `0.01`, `0.03`. -/
theorem C5_cache_hit_semantics_witness :
    (processWaveformLine (mkWLine 0) (1 / 100)
        (processWaveformLine (mkWLine 0) 0 [] ns0).2.1
        (processWaveformLine (mkWLine 0) 0 [] ns0).2.2).1
      = (processWaveformLine (mkWLine 0) 0 [] ns0).1 ∧
    (processWaveformLine (mkWLine 0) (3 / 100)
        (processWaveformLine (mkWLine 0) 0 [] ns0).2.1
        (processWaveformLine (mkWLine 0) 0 [] ns0).2.2).1
      = (computePoints (mkWLine 0) (3 / 100)
          (processWaveformLine (mkWLine 0) 0 [] ns0).2.2).1 ∧
    jsMapGet (wKey (mkWLine 0) 0)
        (processWaveformLine (mkWLine 0) (3 / 100)
          (processWaveformLine (mkWLine 0) 0 [] ns0).2.1
          (processWaveformLine (mkWLine 0) 0 [] ns0).2.2).2.1
      = some ⟨3 / 100, (computePoints (mkWLine 0) (3 / 100)
          (processWaveformLine (mkWLine 0) 0 [] ns0).2.2).1⟩ :=
  C5_cache_hit_semantics (mkWLine 0) 0 (1 / 100) (3 / 100) [] ns0 rfl rfl
    (by norm_num) (by norm_num) (by rw [abs_lt]; constructor <;> norm_num)
    (by rw [le_abs]; right; norm_num)

/-! ### C1 — waveform-cache occupancy bound and FIFO eviction -/

theorem waveInsert_keys {c : WCache} {k : WKey} (v : WEntry)
    (h : jsMapGet k c = none) :
    (waveInsert c k v).map Prod.fst = kInsert (c.map Prod.fst) k := by
  rw [waveInsert_of_none v h]
  unfold kInsert
  rw [List.map_append]
  congr 1
  rw [List.length_map]
  split_ifs
  · cases c <;> rfl
  · rfl

theorem runCalls_nil (t : ℚ) (st : WCache × NoiseState) : runCalls [] t st = st := rfl

theorem runCalls_cons (l : WaveformLine) (ls : List WaveformLine) (t : ℚ)
    (st : WCache × NoiseState) :
    runCalls (l :: ls) t st = runCalls ls t (processWaveformLine l t st.1 st.2).2 := rfl

theorem runCalls_keys (t : ℚ) :
    ∀ (ls : List WaveformLine) (c : WCache) (ns : NoiseState),
      (∀ l ∈ ls, l.muted = false) →
      (ls.map (fun l => wKey l t)).Nodup →
      (∀ l ∈ ls, wKey l t ∉ c.map Prod.fst) →
      (runCalls ls t (c, ns)).1.map Prod.fst
        = kFold (c.map Prod.fst) (ls.map (fun l => wKey l t)) := by
  intro ls
  induction ls with
  | nil => intro c ns _ _ _; rfl
  | cons l ls ih =>
    intro c ns hm hnd hfresh
    have hmiss : jsMapGet (wKey l t) c = none :=
      (jsMapGet_eq_none_iff c (wKey l t)).mpr (hfresh l (List.mem_cons_self l ls))
    rw [runCalls_cons, processWaveformLine_miss (hm l (List.mem_cons_self l ls)) hmiss]
    have hstep := waveInsert_keys (c := c) (k := wKey l t)
      ⟨t, (computePoints l t ns).1⟩ hmiss
    have hnd' : (ls.map (fun l => wKey l t)).Nodup := (List.nodup_cons.mp (by simpa using hnd)).2
    have hnotin : wKey l t ∉ ls.map (fun l => wKey l t) :=
      (List.nodup_cons.mp (by simpa using hnd)).1
    have hfresh' : ∀ l' ∈ ls, wKey l' t ∉
        (waveInsert c (wKey l t) ⟨t, (computePoints l t ns).1⟩).map Prod.fst := by
      intro l' hl'
      rw [hstep]
      unfold kInsert
      rw [List.mem_append]
      rintro (hin | hin)
      · have hsub : (if 100 < (c.map Prod.fst).length then (c.map Prod.fst).tail
            else c.map Prod.fst) ⊆ c.map Prod.fst := by
          split_ifs
          · exact (List.tail_sublist _).subset
          · exact fun x hx => hx
        exact hfresh l' (List.mem_cons_of_mem l hl') (hsub hin)
      · have : wKey l' t = wKey l t := by simpa using hin
        exact hnotin (this ▸ List.mem_map_of_mem (fun l => wKey l t) hl')
    have := ih (waveInsert c (wKey l t) ⟨t, (computePoints l t ns).1⟩)
      (computePoints l t ns).2
      (fun l' hl' => hm l' (List.mem_cons_of_mem l hl')) hnd' hfresh'
    rw [this, hstep]
    rfl

theorem kFold_append_single (ks₀ ks : List WKey) (k : WKey) :
    kFold ks₀ (ks ++ [k]) = kInsert (kFold ks₀ ks) k := by
  unfold kFold
  rw [List.foldl_append]
  rfl

theorem kFold_nil_eq_drop : ∀ ks : List WKey, kFold [] ks = ks.drop (ks.length - 101) := by
  intro ks
  induction ks using List.reverseRecOn with
  | nil => rfl
  | append_singleton ks k ih =>
    rw [kFold_append_single, ih]
    unfold kInsert
    rw [List.length_drop]
    by_cases hn : ks.length ≤ 100
    · rw [if_neg (by omega)]
      have h0 : ks.length - 101 = 0 := by omega
      have h1 : (ks ++ [k]).length - 101 = 0 := by
        rw [List.length_append]
        simp only [List.length_singleton]
        omega
      rw [h0, h1, List.drop_zero, List.drop_zero]
    · rw [if_pos (by omega)]
      rw [List.tail_drop]
      have h2 : (ks ++ [k]).length - 101 = ks.length - 100 := by
        rw [List.length_append]
        simp only [List.length_singleton]
        omega
      rw [h2, show ks.length - 101 + 1 = ks.length - 100 by omega]
      rw [List.drop_append_of_le_length (by omega)]

/-- C1 (amended): from an empty cache, a sequence of `processWaveformLine`
calls on unmuted configurations with pairwise-distinct cache keys leaves the
cache holding exactly the last `min n 101` keys in insertion order: the
occupancy never exceeds `101` (not `100`), the 101st insertion still keeps
the first key, and from the 102nd insertion on the oldest-inserted key is
evicted (FIFO). -/
theorem C1_amended_cache_bound (ls : List WaveformLine) (t : ℚ) (ns : NoiseState)
    (hm : ∀ l ∈ ls, l.muted = false)
    (hnd : (ls.map (fun l => wKey l t)).Nodup) :
    (runCalls ls t ([], ns)).1.map Prod.fst
        = (ls.map (fun l => wKey l t)).drop (ls.length - 101) ∧
      (runCalls ls t ([], ns)).1.length = min ls.length 101 := by
  have hkeys := runCalls_keys t ls [] ns hm hnd (by simp)
  have hdrop := kFold_nil_eq_drop (ls.map (fun l => wKey l t))
  rw [List.length_map] at hdrop
  constructor
  · rw [hkeys]
    simpa using hdrop
  · have hlen : (runCalls ls t ([], ns)).1.length
        = ((runCalls ls t ([], ns)).1.map Prod.fst).length := by
      rw [List.length_map]
    rw [hlen, hkeys]
    have : kFold (([] : WCache).map Prod.fst) (ls.map (fun l => wKey l t))
        = (ls.map (fun l => wKey l t)).drop (ls.length - 101) := by simpa using hdrop
    rw [this, List.length_drop, List.length_map]
    omega

/-- Witness for the amended C1 at a single concrete call. -/
theorem C1_amended_cache_bound_witness :
    (∀ l ∈ [mkWLine 0], l.muted = false) ∧
      ([mkWLine 0].map (fun l => wKey l 0)).Nodup ∧
      ((runCalls [mkWLine 0] 0 ([], ns0)).1.map Prod.fst
          = ([mkWLine 0].map (fun l => wKey l 0)).drop ([mkWLine 0].length - 101) ∧
        (runCalls [mkWLine 0] 0 ([], ns0)).1.length = min [mkWLine 0].length 101) := by
  have h1 : ∀ l ∈ [mkWLine 0], l.muted = false := by
    intro l hl
    rw [List.mem_singleton] at hl
    rw [hl]
    rfl
  have h2 : ([mkWLine 0].map (fun l => wKey l 0)).Nodup := by simp
  exact ⟨h1, h2, C1_amended_cache_bound [mkWLine 0] 0 ns0 h1 h2⟩

/-- C1 as written is false: 101 distinct unmuted configurations inserted into
the empty cache leave 101 entries (not 100), and the first-inserted key is
still present (not evicted). -/
theorem C1_counterexample :
    (runCalls (cexLines 101) 0 ([], ns0)).1.length = 101 ∧
      (jsMapGet (wKey (mkWLine 0) 0) (runCalls (cexLines 101) 0 ([], ns0)).1).isSome
        = true := by
  have hinj : Function.Injective (fun i : ℕ => wKey (mkWLine i) (0 : ℚ)) := by
    intro i j h
    simp only [wKey, mkWLine] at h
    have hs : String.mk (List.replicate i 'a') = String.mk (List.replicate j 'a') :=
      congrArg Prod.fst h
    have h2 : List.replicate i 'a' = List.replicate j 'a' := by injection hs
    have := congrArg List.length h2
    simpa using this
  have hmut : ∀ l ∈ cexLines 101, l.muted = false := by
    intro l hl
    simp only [cexLines, List.mem_map] at hl
    obtain ⟨i, _, rfl⟩ := hl
    rfl
  have hnd : ((cexLines 101).map (fun l => wKey l 0)).Nodup := by
    rw [cexLines, List.map_map]
    exact (List.nodup_range 101).map hinj
  have hkeys := runCalls_keys 0 (cexLines 101) [] ns0 hmut hnd (by simp)
  have hdrop := kFold_nil_eq_drop ((cexLines 101).map (fun l => wKey l 0))
  have hlen : (cexLines 101).length = 101 := by simp [cexLines]
  have hmapkeys : (runCalls (cexLines 101) 0 ([], ns0)).1.map Prod.fst
      = (cexLines 101).map (fun l => wKey l 0) := by
    rw [hkeys]
    have : kFold (([] : WCache).map Prod.fst) ((cexLines 101).map (fun l => wKey l 0))
        = ((cexLines 101).map (fun l => wKey l 0)).drop
            (((cexLines 101).map (fun l => wKey l 0)).length - 101) := hdrop
    rw [this, List.length_map, hlen]
    norm_num
  constructor
  · have hcg := congrArg List.length hmapkeys
    rw [List.length_map, List.length_map, hlen] at hcg
    exact hcg
  · have hmem : wKey (mkWLine 0) 0 ∈ (runCalls (cexLines 101) 0 ([], ns0)).1.map Prod.fst := by
      rw [hmapkeys]
      refine List.mem_map_of_mem (fun l => wKey l 0) ?_
      rw [cexLines]
      exact List.mem_map_of_mem mkWLine (List.mem_range.mpr (by norm_num))
    rcases hh : jsMapGet (wKey (mkWLine 0) 0) (runCalls (cexLines 101) 0 ([], ns0)).1 with _ | w
    · rw [jsMapGet_eq_none_iff] at hh
      exact absurd hmem hh
    · rfl

/-! ### C2 — waterfall frequency bins -/

theorem jsMapGet_some_mem {α β : Type} [DecidableEq α] {m : List (α × β)} {k : α} {v : β}
    (h : jsMapGet k m = some v) : (k, v) ∈ m := by
  induction m with
  | nil => simp [jsMapGet] at h
  | cons p rest ih =>
    by_cases hp : p.1 = k
    · simp only [jsMapGet, if_pos hp, Option.some.injEq] at h
      have : (k, v) = p := by
        rw [← hp, ← h]
      rw [this]
      exact List.mem_cons_self p rest
    · simp only [jsMapGet, if_neg hp] at h
      exact List.mem_cons_of_mem p (ih h)

theorem jsMapSet_forall {α β : Type} [DecidableEq α] {P : β → Prop} (m : List (α × β))
    (k : α) (v : β) (hm : ∀ p ∈ m, P p.2) (hv : P v) :
    ∀ p ∈ jsMapSet m k v, P p.2 := by
  intro p hp
  unfold jsMapSet at hp
  split_ifs at hp with h
  · rw [List.mem_map] at hp
    obtain ⟨q, hq, rfl⟩ := hp
    split_ifs
    · exact hv
    · exact hm q hq
  · rw [List.mem_append] at hp
    rcases hp with hp | hp
    · exact hm p hp
    · rw [List.mem_singleton] at hp
      rw [hp]
      exact hv

theorem sInsert_forall {P : WaterfallData → Prop} (c : SCache) (k : SKey)
    (v : WaterfallData) (hc : ∀ p ∈ c, P p.2) (hv : P v) :
    ∀ p ∈ sInsert c k v, P p.2 := by
  apply jsMapSet_forall
  · intro p hp
    apply hc
    split_ifs at hp
    · exact (List.tail_sublist c).subset hp
    · exact hp
  · exact hv

theorem goWaterfall_frequencies (time cf bw : ℚ) (F : List ℚ)
    (hF : ∀ w, (computeWaterfall w time cf bw).frequencies = F) :
    ∀ (items : List (ℕ × WaveformInput)) (c : SCache),
      (∀ kv ∈ c, kv.2.frequencies = F) →
      ∀ d ∈ (goWaterfall time cf bw items c).1, d.frequencies = F := by
  intro items
  induction items with
  | nil =>
    intro c _ d hd
    simp [goWaterfall] at hd
  | cons iw rest ih =>
    obtain ⟨idx, w⟩ := iw
    intro c hc d hd
    have hcons : goWaterfall time cf bw ((idx, w) :: rest) c =
        match jsMapGet ((idx, pointsHash w, ⌊time * 10⌋) : SKey) c with
        | some cached =>
          ({ cached with time := time } :: (goWaterfall time cf bw rest c).1,
            (goWaterfall time cf bw rest c).2)
        | none =>
          (computeWaterfall w time cf bw ::
              (goWaterfall time cf bw rest
                (sInsert c (idx, pointsHash w, ⌊time * 10⌋)
                  (computeWaterfall w time cf bw))).1,
            (goWaterfall time cf bw rest
              (sInsert c (idx, pointsHash w, ⌊time * 10⌋)
                (computeWaterfall w time cf bw))).2) := rfl
    rw [hcons] at hd
    rcases hget : jsMapGet ((idx, pointsHash w, ⌊time * 10⌋) : SKey) c with _ | cached
    · rw [hget] at hd
      simp only [List.mem_cons] at hd
      rcases hd with hd | hd
      · rw [hd]
        exact hF w
      · exact ih _ (sInsert_forall (P := fun r => r.frequencies = F) c _ _ hc (hF w)) d hd
    · rw [hget] at hd
      simp only [List.mem_cons] at hd
      rcases hd with hd | hd
      · rw [hd]
        exact hc (_, cached) (jsMapGet_some_mem hget)
      · exact ih c hc d hd

/-- C2 (amended): for every call on an empty spectral cache with
`bandwidth > 0`, each returned frame carries exactly `FFT_SIZE/2 = 128`
frequency bins, linearly spaced in steps of `bandwidth/128` starting at
`max(0, centerFreq - bandwidth/2)`; whenever no clamping occurs
(`bandwidth ≤ 2·centerFreq`) every bin lies within
`[centerFreq - bandwidth/2, centerFreq + bandwidth/2]`.  (When the lower edge
is clamped to `0` the step is still `bandwidth/128`, so the top bins may
exceed `centerFreq + bandwidth/2` — see the counterexample.) -/
theorem C2_amended_bins (waveforms : List WaveformInput) (time cf bw : ℚ)
    (hbw : 0 < bw) :
    ∀ d ∈ (generateWaterfallData waveforms time cf bw []).1,
      d.frequencies = List.ofFn (fun i : Fin (FFT_SIZE / 2) =>
          max 0 (cf - bw / 2) + (i : ℚ) * (bw / ((FFT_SIZE / 2 : ℕ) : ℚ))) ∧
        (bw ≤ 2 * cf → ∀ q ∈ d.frequencies, cf - bw / 2 ≤ q ∧ q ≤ cf + bw / 2) := by
  intro d hd
  unfold generateWaterfallData at hd
  split_ifs at hd with h1 h2 h3
  · simp at hd
  · simp at hd
  · simp at hd
  · have hfreq := goWaterfall_frequencies time cf bw
      (List.ofFn (fun i : Fin (FFT_SIZE / 2) =>
        max 0 (cf - bw / 2) + (i : ℚ) * (bw / ((FFT_SIZE / 2 : ℕ) : ℚ))))
      (fun w => rfl) _ [] (by simp) d hd
    refine ⟨hfreq, ?_⟩
    intro hclamp q hq
    rw [hfreq, List.mem_ofFn, Set.mem_range] at hq
    obtain ⟨i, hi⟩ := hq
    rw [← hi]
    have hmax : max 0 (cf - bw / 2) = cf - bw / 2 := max_eq_right (by linarith)
    have hFF : ((FFT_SIZE / 2 : ℕ) : ℚ) = 128 := by norm_num [FFT_SIZE]
    have hilt : (i : ℕ) < 128 := i.isLt
    have hile : ((i : ℕ) : ℚ) ≤ 127 := by exact_mod_cast Nat.lt_succ_iff.mp hilt
    have hinn : (0 : ℚ) ≤ ((i : ℕ) : ℚ) := by positivity
    rw [hmax, hFF]
    constructor
    · have : 0 ≤ ((i : ℕ) : ℚ) * (bw / 128) := by positivity
      linarith
    · have hstep : ((i : ℕ) : ℚ) * (bw / 128) ≤ 127 * (bw / 128) :=
        mul_le_mul_of_nonneg_right hile (by positivity)
      linarith

/-- Witness for the amended C2 at a concrete valid call. -/
theorem C2_amended_bins_witness :
    (0 : ℚ) < 2 ∧
      ((generateWaterfallData [wEmpty] 0 2 2 []).1.headD ⟨[], [], 0⟩).frequencies
        = List.ofFn (fun i : Fin (FFT_SIZE / 2) =>
            max 0 (2 - 2 / 2 : ℚ) + (i : ℚ) * ((2 : ℚ) / ((FFT_SIZE / 2 : ℕ) : ℚ))) := by
  have hres : (generateWaterfallData [wEmpty] 0 2 2 []).1
      = [computeWaterfall wEmpty 0 2 2] := rfl
  have hmem : computeWaterfall wEmpty 0 2 2 ∈ (generateWaterfallData [wEmpty] 0 2 2 []).1 := by
    rw [hres]
    exact List.mem_singleton.mpr rfl
  have h := (C2_amended_bins [wEmpty] 0 2 2 (by norm_num) _ hmem).1
  refine ⟨by norm_num, ?_⟩
  rw [hres]
  simpa using h

/-- C2 as written is false: with `centerFreq = 1`, `bandwidth = 256` the
lower edge clamps to `0` but the step stays `bandwidth/128 = 2`, so bin 127
sits at frequency `254`, far above the claimed upper edge
`centerFreq + bandwidth/2 = 129`. -/
theorem C2_counterexample :
    ((generateWaterfallData [wEmpty] 0 1 256 []).1.headD ⟨[], [], 0⟩).frequencies.getD 127 0
        = 254 ∧
      ¬((254 : ℚ) ≤ 1 + 256 / 2) := by
  constructor
  · have hres : (generateWaterfallData [wEmpty] 0 1 256 []).1
        = [computeWaterfall wEmpty 0 1 256] := rfl
    rw [hres]
    simp only [List.headD_cons]
    unfold computeWaterfall
    dsimp only
    rw [List.getD_eq_getElem?_getD]
    rw [← List.get?_eq_getElem?, List.get?_ofFn]
    simp only [List.ofFnNthVal]
    rw [dif_pos (by norm_num [FFT_SIZE])]
    simp only [Option.getD_some]
    rw [show max (0 : ℚ) (1 - 256 / 2) = 0 from max_eq_left (by norm_num)]
    norm_num [FFT_SIZE]
  · norm_num

end

end OpenDSP
